import Mathlib

/-!
Formal model of ftpbench (`src/ftpbench/ftpbench.py`), a concurrent FTP
load-generation harness.  The Python constructs relevant to the verified
properties are embedded as executable Lean definitions:

* the chunked test-data generator `Data` (lines 65-85);
* the round-robin host selector `FTP.host` / `FTP.__init__` (lines 90-117);
* the connection context manager `FTP.connect` (lines 119-135) and the
  operations `FTP.upload` (137-152) and `FTP.clean` (171-174), modelled over
  an explicit environment describing the behaviour of the external FTP
  server at each blocking step;
* the outcome classifier of `run_bench_login._check` /
  `run_bench_upload._check` (lines 208-219, 270-283);
* the bounded worker pool and shutdown path of `run_bench_login` /
  `run_bench_upload` (lines 221-233, 285-300), as a step function on an
  explicit runner state.

Machine behaviour external to the repository (gevent `Timeout`, `ftplib`
errors, `socket.error`, `gevent.pool.Pool`) is modelled by its documented
semantics: an exception value space, and `Pool.kill` terminating the pooled
greenlets.
-/

namespace FtpBench

/-! ### Test data generator (`Data`, ftpbench.py lines 65-85)

`Data(size)` is an iterator whose `next()` returns the 65536-byte constant
chunk while more than 65536 bytes remain, the remainder as a final short
chunk, and raises `StopIteration` when `read == size`.  Only chunk lengths
matter for the verified properties, so the model produces the list of chunk
lengths.  `dataGo` is the iteration loop; `fuel` is an upper bound on the
number of iterations (the loop consumes 65536 bytes per step, so
`size / 65536 + 1` steps always suffice) and `rem` is `size - read`. -/

/-- Length of the full chunk `Data.chunk = "x" * 65536`. -/
def chunkFull : Nat := 65536

/-- The iteration loop of `Data.next` (ftpbench.py lines 75-85), returning
the list of chunk lengths produced from a remaining byte count `rem`. -/
def dataGo : Nat → Nat → List Nat
  | 0, _ => []
  | fuel + 1, rem =>
    if rem = 0 then []
    else if chunkFull < rem then chunkFull :: dataGo fuel (rem - chunkFull)
    else [rem]

/-- Chunk lengths produced by iterating `Data(size)` to exhaustion. -/
def dataChunks (size : Nat) : List Nat :=
  dataGo (size / chunkFull + 1) size

/-! ### Exceptions and outcome classification
(`_check`, ftpbench.py lines 208-219 / 270-283 / 349-359)

The blocking steps of an operation either return normally or raise one of:
gevent `Timeout` (a per-step deadline elapsed), `ftplib.error_temp` (4xx
server reply), `ftplib.error_perm` (5xx server reply), or `socket.error`
(transport failure).  `_check` classifies the completion of an operation
with `except Timeout / except (error_temp, error_perm, sock_error) / else`. -/

/-- The exception classes an operation's blocking steps can raise. -/
inductive Exc where
  | timeout
  | errorTemp
  | errorPerm
  | sockError
deriving DecidableEq, Repr

/-- The three-way outcome recorded by `_check`. -/
inductive Outcome where
  | success
  | timeout
  | rejected
deriving DecidableEq, Repr

/-- The `try/except Timeout/except (error_temp, error_perm, sock_error)/else`
classifier of `_check` (ftpbench.py lines 210-219): `none` is a normal
return of the operation, `some e` an exception `e` propagating out of it. -/
def classify : Option Exc → Outcome
  | none => Outcome.success
  | some Exc.timeout => Outcome.timeout
  | some Exc.errorTemp => Outcome.rejected
  | some Exc.errorPerm => Outcome.rejected
  | some Exc.sockError => Outcome.rejected

/-! ### Stats counters and the runner's worker pool
(`run_bench_login` / `run_bench_upload`, ftpbench.py lines 177-300)

`_check` increments `requests` first (line 209 / 271), runs the operation,
then increments exactly one of `success` / `fail.timeout` / `fail.rejected`.
The runner loop spawns `_check` greenlets through `Pool(size=C)` after
`wait_available()` (lines 222-227); on run-deadline expiry or interrupt it
stops the loop and the `finally` block calls `gr_stats.kill()` and
`gr_pool.kill()` (lines 230-233), which terminates every in-flight greenlet
without letting it classify its operation. -/

/-- The success / timeout / rejected / requests counters of the run. -/
structure Stats where
  requests : Nat
  success : Nat
  timeout : Nat
  rejected : Nat
deriving DecidableEq, Repr

/-- All counters start at zero. -/
def Stats.init : Stats := ⟨0, 0, 0, 0⟩

/-- The `except register/else` tail of `_check`: exactly one outcome counter
is incremented according to `classify`. -/
def recordOutcome (st : Stats) (r : Option Exc) : Stats :=
  match classify r with
  | Outcome.success => { st with success := st.success + 1 }
  | Outcome.timeout => { st with timeout := st.timeout + 1 }
  | Outcome.rejected => { st with rejected := st.rejected + 1 }

/-- Events of the runner: a launch of a new `_check` greenlet (which
immediately increments `requests`), the completion of an in-flight
operation with result `r`, and the stop path (run deadline or interrupt
followed by the `finally` block's `gr_pool.kill()`). -/
inductive REv where
  | launch
  | complete (r : Option Exc)
  | stop
deriving DecidableEq, Repr

/-- The runner is in the spawning loop (`running`) or has executed the
`finally` block (`stopped`). -/
inductive Phase where
  | running
  | stopped
deriving DecidableEq, Repr

/-- Runner state: phase, number of in-flight `_check` greenlets, counters. -/
structure RunnerState where
  phase : Phase
  inFlight : Nat
  stats : Stats
deriving DecidableEq, Repr

/-- Initial runner state. -/
def RunnerState.init : RunnerState := ⟨Phase.running, 0, Stats.init⟩

/-- One runner transition with concurrency bound `C` (`Pool(size=C)`):
* `launch` requires a free pool slot (`wait_available()` blocks until
  `inFlight < C`) and the spawning loop still running; the spawned `_check`
  increments `requests` at once (line 209 / 271);
* `complete r` finishes one in-flight operation and runs the classifier;
* `stop` leaves the spawning loop and runs the `finally` block:
  `gr_pool.kill()` terminates all in-flight greenlets, so `inFlight`
  drops to zero with no outcome counter incremented. -/
def rstep (C : Nat) (s : RunnerState) : REv → Option RunnerState
  | REv.launch =>
    if s.phase = Phase.running ∧ s.inFlight < C then
      some { s with inFlight := s.inFlight + 1,
                    stats := { s.stats with requests := s.stats.requests + 1 } }
    else none
  | REv.complete r =>
    if s.phase = Phase.running ∧ 0 < s.inFlight then
      some { s with inFlight := s.inFlight - 1,
                    stats := recordOutcome s.stats r }
    else none
  | REv.stop =>
    if s.phase = Phase.running then
      some { s with phase := Phase.stopped, inFlight := 0 }
    else none

/-- A whole run: fold `rstep` over an event list. -/
def runTrace (C : Nat) (s : RunnerState) : List REv → Option RunnerState
  | [] => some s
  | e :: es =>
    match rstep C s e with
    | none => none
    | some s' => runTrace C s' es

/-! ### The connection context manager (`FTP.connect`, ftpbench.py 119-135)

```
@contextmanager
def connect(self):
    with Timeout(self.timeout):
        ... ftp.connect(host, port) / ftp = _FTP(self.host) ...
        ftp.login(self.user, self.password)
    try:
        yield ftp
    finally:
        ftp.close()
```

The `try/finally` wraps only the `yield`: an exception raised while
connecting or logging in propagates before the `try` block is entered, so
`ftp.close()` runs exactly for the exit paths of the body.  The environment
records what each external step does: `none` means the step completes,
`some e` that it raises `e` (a `Timeout` stands for the deadline elapsing
inside `with Timeout(self.timeout)`). -/

/-- Behaviour of the connect-and-login phase of one operation. -/
structure ConnEnv where
  connectExc : Option Exc
  loginExc : Option Exc
deriving DecidableEq, Repr

/-- What one pass through `FTP.connect` did: the exception (if any) that
propagated, whether the TCP connection was opened, and how many times
`ftp.close()` ran. -/
structure ConnResult where
  result : Option Exc
  opened : Bool
  closes : Nat
deriving DecidableEq, Repr

/-- Run of `FTP.connect` around a body whose own outcome is `body`
(`none` = body returned, `some e` = body raised `e`). -/
def connectRun (env : ConnEnv) (body : Option Exc) : ConnResult :=
  match env.connectExc with
  | some e => ⟨some e, false, 0⟩
  | none =>
    match env.loginExc with
    | some e => ⟨some e, true, 0⟩
    | none => ⟨body, true, 1⟩

/-! ### Upload (`FTP.upload`, ftpbench.py 137-152)

```
def upload(self, path, data):
    with self.connect() as ftp:
        self.upload_files.append(path)        # before STOR!
        with Timeout(self.timeout):
            ftp.voidcmd("TYPE I")
            channel = ftp.transfercmd("STOR " + path)
        for chunk in data:
            with Timeout(self.timeout):
                channel.sendall(chunk)
                self.stats.traffic += len(chunk)
        with Timeout(self.timeout):
            channel.close()
            ftp.voidresp()
```

The path is appended to `upload_files` as soon as the body of the
`connect()` context manager starts — before `STOR` is issued. -/

/-- Behaviour of the external steps of one upload attempt. -/
structure UploadEnv where
  conn : ConnEnv
  /-- `TYPE I` + `transfercmd("STOR " + path)` (the guarded block). -/
  storExc : Option Exc
  /-- Result of `channel.sendall` for the i-th chunk. -/
  sendExc : Nat → Option Exc
  /-- `channel.close()` + `ftp.voidresp()`. -/
  closeExc : Option Exc

/-- What one `FTP.upload` call did. -/
structure UploadResult where
  result : Option Exc
  /-- `path` was appended to `self.upload_files`. -/
  appended : Bool
  opened : Bool
  closes : Nat
  traffic : Nat
deriving DecidableEq, Repr

/-- The chunk loop: each chunk is sent and, if the send completes, its
length is added to the traffic counter; a raising send aborts the loop. -/
def sendLoop (sendExc : Nat → Option Exc) : List Nat → Nat → Option Exc × Nat
  | [], _ => (none, 0)
  | c :: cs, i =>
    match sendExc i with
    | some e => (some e, 0)
    | none =>
      let (r, t) := sendLoop sendExc cs (i + 1)
      (r, c + t)

/-- The body of the `with self.connect()` block, after the append. -/
def uploadBody (env : UploadEnv) (chunks : List Nat) : Option Exc × Nat :=
  match env.storExc with
  | some e => (some e, 0)
  | none =>
    match sendLoop env.sendExc chunks 0 with
    | (some e, t) => (some e, t)
    | (none, t) =>
      match env.closeExc with
      | some e => (some e, t)
      | none => (none, t)

/-- Run of `FTP.upload` for one path whose data has chunk lengths `chunks`. -/
def uploadRun (env : UploadEnv) (chunks : List Nat) : UploadResult :=
  match env.conn.connectExc with
  | some e => ⟨some e, false, false, 0, 0⟩
  | none =>
    match env.conn.loginExc with
    | some e => ⟨some e, false, true, 0, 0⟩
    | none =>
      let (r, t) := uploadBody env chunks
      ⟨r, true, true, 1, t⟩

/-! ### Cleanup (`FTP.clean`, ftpbench.py 171-174)

```
def clean(self):
    with self.connect() as ftp:
        for path in self.upload_files:
            ftp.delete(path)
```

There is no `try/except` around `ftp.delete`: a raising delete aborts the
loop, and — since `run_bench_upload` calls `ftp.clean()` in its `finally`
block with no handler (lines 294-300) — the exception propagates and fails
the run.  Paths are identified by their index in `upload_files`. -/

/-- The delete loop: returns the exception that propagated (if any) and
the list of paths that received a delete attempt, in order. -/
def cleanFor (delExc : Nat → Option Exc) : List Nat → Option Exc × List Nat
  | [] => (none, [])
  | p :: rest =>
    match delExc p with
    | some e => (some e, [p])
    | none =>
      let (r, att) := cleanFor delExc rest
      (r, p :: att)

/-- Run of `FTP.clean`: one connection, then the delete loop over `upload_files`. -/
def cleanRun (conn : ConnEnv) (delExc : Nat → Option Exc) (paths : List Nat) :
    Option Exc × List Nat :=
  match conn.connectExc with
  | some e => (some e, [])
  | none =>
    match conn.loginExc with
    | some e => (some e, [])
    | none => cleanFor delExc paths

/-- Environment of an upload attempt whose `STOR` is rejected with a
permanent server error while connect and login succeed. -/
def storRejectEnv : UploadEnv :=
  ⟨⟨none, none⟩, some Exc.errorPerm, fun _ => none, none⟩

/-! ### Target selector (`FTP.__init__` / `FTP.host`, ftpbench.py 90-117)

```
self.hosts = host.split(",")
if len(self.hosts) > 1:
    self.stats.server = MultiMetric("server")
    for h in self.hosts:
        self.stats.server[h] = Int(h)
...
@property
def host(self):
    n = len(self.hosts)
    if n == 1:
        return self.hosts[0]
    else:
        h = self._host_roundrobin.next()
        self.stats.server[h] += 1
        return h
```

The round-robin generator `cycle(self.hosts)` yields `hosts[cursor % N]`
and advances the cursor by one per `next()`.  The per-host counters
`stats.server` form a map from host string to count, created only when
more than one host is configured. -/

/-- Selector state: the host list, the round-robin cursor (number of
`next()` calls so far), and — when more than one host is configured — the
per-host selection counters `stats.server`. -/
structure SelectorState where
  hosts : List String
  cursor : Nat
  counts : Option (String → Nat)

/-- Model of `FTP.__init__`: counters exist only for more than one host, and start
at zero. -/
def initFTP (hosts : List String) : SelectorState :=
  ⟨hosts, 0, if 1 < hosts.length then some (fun _ => 0) else none⟩

/-- The `host` property: with a single host return it unchanged; otherwise
take the next round-robin host and increment its selection counter. -/
def hostSelect (s : SelectorState) : String × SelectorState :=
  if s.hosts.length = 1 then
    (s.hosts.getD 0 "", s)
  else
    let h := s.hosts.getD (s.cursor % s.hosts.length) ""
    (h, { s with
          cursor := s.cursor + 1,
          counts := s.counts.map (fun f h' => if h' = h then f h' + 1 else f h') })

/-- Apply `M` successive evaluations of the `host` property. -/
def selectN (s : SelectorState) : Nat → SelectorState
  | 0 => s
  | m + 1 => selectN (hostSelect s).2 m

/-- Model of how `FTP.connect` (ftpbench.py 119-130) evaluates the `host` property
twice per connection attempt: once in `":" in self.host` and once more in
either `self.host.rsplit(":", 1)` or `_FTP(self.host)`.  The pair is
(host tested for a port separator, host actually parsed/connected to). -/
def connectHosts (s : SelectorState) : (String × String) × SelectorState :=
  let p1 := hostSelect s
  let p2 := hostSelect p1.2
  ((p1.1, p2.1), p2.2)

/-- Number of `k < M` with `k % N = i`: how often the round-robin cursor
hits residue `i` in `M` selections. -/
def hitsCount (N i M : Nat) : Nat :=
  (List.range M).countP (fun k => k % N == i)

/-! ### Lemmas and verified claims -/

lemma dataGo_sum (fuel : Nat) : ∀ rem : Nat, rem ≤ chunkFull * fuel →
    (dataGo fuel rem).sum = rem := by
  induction fuel with
  | zero =>
    intro rem h
    have h0 : rem = 0 := by simp [chunkFull] at h; omega
    simp [dataGo, h0]
  | succ n ih =>
    intro rem h
    by_cases h0 : rem = 0
    · simp [dataGo, h0]
    · by_cases hbig : chunkFull < rem
      · have hrec : rem - chunkFull ≤ chunkFull * n := by
          simp only [chunkFull] at h ⊢
          omega
        simp [dataGo, h0, hbig, ih _ hrec]
        omega
      · simp [dataGo, h0, hbig]

lemma dataGo_le (fuel : Nat) : ∀ rem : Nat, ∀ c ∈ dataGo fuel rem,
    c ≤ chunkFull := by
  induction fuel with
  | zero => intro rem c hc; simp [dataGo] at hc
  | succ n ih =>
    intro rem c hc
    by_cases h0 : rem = 0
    · simp [dataGo, h0] at hc
    · by_cases hbig : chunkFull < rem
      · simp only [dataGo, h0, hbig, if_true, if_false, ite_true, ite_false,
          List.mem_cons] at hc
        rcases hc with rfl | hc
        · exact le_refl _
        · exact ih _ c hc
      · simp [dataGo, h0, hbig] at hc
        subst hc
        omega

lemma dataGo_length (fuel : Nat) : ∀ rem : Nat, rem ≤ chunkFull * fuel →
    (dataGo fuel rem).length = (rem + (chunkFull - 1)) / chunkFull := by
  induction fuel with
  | zero =>
    intro rem h
    have h0 : rem = 0 := by simp [chunkFull] at h; omega
    simp [dataGo, h0, chunkFull]
  | succ n ih =>
    intro rem h
    by_cases h0 : rem = 0
    · simp [dataGo, h0, chunkFull]
    · by_cases hbig : chunkFull < rem
      · have hrec : rem - chunkFull ≤ chunkFull * n := by
          simp only [chunkFull] at h ⊢
          omega
        simp [dataGo, h0, hbig, ih _ hrec]
        simp only [chunkFull] at hbig ⊢
        omega
      · simp [dataGo, h0, hbig]
        simp only [chunkFull] at hbig ⊢
        omega

lemma dataGo_last (fuel : Nat) : ∀ rem : Nat, rem ≤ chunkFull * fuel →
    0 < rem →
    (dataGo fuel rem).getLast? =
      some (if rem % chunkFull = 0 then chunkFull else rem % chunkFull) := by
  induction fuel with
  | zero =>
    intro rem h h0
    exfalso
    simp [chunkFull] at h
    omega
  | succ n ih =>
    intro rem h h0
    have h0' : rem ≠ 0 := by omega
    by_cases hbig : chunkFull < rem
    · have hrec : rem - chunkFull ≤ chunkFull * n := by
        simp only [chunkFull] at h ⊢
        omega
      have hpos : 0 < rem - chunkFull := by
        simp only [chunkFull] at hbig ⊢
        omega
      have hmod : (rem - chunkFull) % chunkFull = rem % chunkFull := by
        simp only [chunkFull] at hbig ⊢
        omega
      have hne : dataGo n (rem - chunkFull) ≠ [] := by
        intro hnil
        have hlen := dataGo_length n (rem - chunkFull) hrec
        rw [hnil] at hlen
        simp only [List.length_nil, chunkFull] at hlen hpos
        omega
      have hstep : dataGo (n + 1) rem = chunkFull :: dataGo n (rem - chunkFull) := by
        simp [dataGo, h0', hbig]
      cases hrest : dataGo n (rem - chunkFull) with
      | nil => exact absurd hrest hne
      | cons b bs =>
        have hih := ih _ hrec hpos
        rw [hrest] at hih
        rw [hstep, hrest, List.getLast?_cons_cons, hih, hmod]
    · have hstep : dataGo (n + 1) rem = [rem] := by
        simp [dataGo, h0', hbig]
      rw [hstep]
      have heq : rem = if rem % chunkFull = 0 then chunkFull else rem % chunkFull := by
        simp only [chunkFull] at hbig ⊢
        split <;> omega
      rw [List.getLast?_singleton, ← heq]

/-- C6. For every `size ≥ 0` the test data generator produces chunks
whose lengths sum exactly to `size`, each chunk at most 65536 bytes, with
exactly `⌈size/65536⌉` chunks (zero chunks when `size = 0`), and the final
chunk is of length `size % 65536`, or a full 65536-byte chunk when `size`
is a nonzero multiple of 65536. -/
theorem C6_data_generator (size : Nat) :
    (dataChunks size).sum = size ∧
    (∀ c ∈ dataChunks size, c ≤ 65536) ∧
    (dataChunks size).length = (size + 65535) / 65536 ∧
    (size = 0 → dataChunks size = []) ∧
    (0 < size → (dataChunks size).getLast? =
      some (if size % 65536 = 0 then 65536 else size % 65536)) := by
  have hfuel : size ≤ chunkFull * (size / chunkFull + 1) := by
    simp only [chunkFull]
    omega
  refine ⟨dataGo_sum _ _ hfuel, ?_, ?_, ?_, ?_⟩
  · intro c hc
    exact dataGo_le _ _ c hc
  · have := dataGo_length _ _ hfuel
    simpa [chunkFull] using this
  · intro h0
    subst h0
    rfl
  · intro hpos
    have := dataGo_last _ _ hfuel hpos
    simpa [chunkFull] using this

/-- Witness for C6: concrete evaluation at `size = 70000`
(two chunks: `[65536, 4464]`). -/
theorem C6_data_generator_witness :
    (dataChunks 70000).sum = 70000 ∧
    (dataChunks 70000).length = 2 ∧
    4464 ≤ 65536 ∧
    (dataChunks 70000).getLast? = some 4464 := by
  have h := C6_data_generator 70000
  refine ⟨h.1, ?_, h.2.1 4464 (by decide), ?_⟩
  · rw [h.2.2.1]
  · rw [h.2.2.2.2 (by decide)]
    norm_num

lemma runTrace_inv (C : Nat) (P : RunnerState → Prop)
    (hstep : ∀ s e s', P s → rstep C s e = some s' → P s') :
    ∀ evs s s', P s → runTrace C s evs = some s' → P s' := by
  intro evs
  induction evs with
  | nil =>
    intro s s' hP h
    simp [runTrace] at h
    rwa [← h]
  | cons e es ih =>
    intro s s' hP h
    simp only [runTrace] at h
    cases hstep' : rstep C s e with
    | none => rw [hstep'] at h; exact absurd h (by simp)
    | some s1 =>
      rw [hstep'] at h
      exact ih s1 s' (hstep s e s1 hP hstep') h

lemma rstep_preserves_accounting (C : Nat) (s : RunnerState) (e : REv)
    (s' : RunnerState)
    (hP : s.phase = Phase.running →
      s.stats.requests = s.stats.success + s.stats.timeout + s.stats.rejected + s.inFlight)
    (h : rstep C s e = some s') :
    s'.phase = Phase.running →
      s'.stats.requests = s'.stats.success + s'.stats.timeout + s'.stats.rejected + s'.inFlight := by
  cases e with
  | launch =>
    simp only [rstep] at h
    split at h
    · rename_i hcond
      cases h
      intro _
      have := hP hcond.1
      simp
      omega
    · exact absurd h (by simp)
  | complete r =>
    simp only [rstep] at h
    split at h
    · rename_i hcond
      cases h
      intro _
      have := hP hcond.1
      have hpos := hcond.2
      cases r with
      | none => simp [recordOutcome, classify]; omega
      | some e' => cases e' <;> simp [recordOutcome, classify] <;> omega
    · exact absurd h (by simp)
  | stop =>
    simp only [rstep] at h
    split at h
    · cases h
      intro hph
      simp at hph
    · exact absurd h (by simp)

/-- C3. Every completed operation is classified into exactly one of the
three outcomes: a deadline expiry (`Timeout`) yields `timeout`, a temporary
or permanent protocol error or a socket-level error yields `rejected`, and
a normal return yields `success`; `recordOutcome` increments exactly one
outcome counter per completion. -/
theorem C3_outcome_classification (r : Option Exc) :
    (classify r = Outcome.timeout ↔ r = some Exc.timeout) ∧
    (classify r = Outcome.rejected ↔
      (r = some Exc.errorTemp ∨ r = some Exc.errorPerm ∨ r = some Exc.sockError)) ∧
    (classify r = Outcome.success ↔ r = none) ∧
    (∀ st : Stats,
      (recordOutcome st r).success + (recordOutcome st r).timeout +
        (recordOutcome st r).rejected = st.success + st.timeout + st.rejected + 1 ∧
      (recordOutcome st r).requests = st.requests) := by
  cases r with
  | none =>
    refine ⟨by simp [classify], by simp [classify], by simp [classify], ?_⟩
    intro st
    simp [recordOutcome, classify]
    omega
  | some e =>
    cases e <;>
      refine ⟨by simp [classify], by simp [classify], by simp [classify], ?_⟩ <;>
      intro st <;> simp [recordOutcome, classify] <;> omega

/-- Counterexample to **C5** as stated: after the trace `[launch]` one
operation is in flight, `requests = 1`, but no outcome counter is set, so
`requests ≠ success + timeout + rejected` at a snapshot taken while an
operation is in flight. -/
theorem C5_counterexample :
    runTrace 10 RunnerState.init [REv.launch] =
      some ⟨Phase.running, 1, ⟨1, 0, 0, 0⟩⟩ ∧
    (1 : Nat) ≠ 0 + 0 + 0 := by
  decide

/-- C5 (amended). At every snapshot instant during the run (every
reachable state in the `running` phase, where the stats ticker lives), the
cumulative `requests` counter equals `success + timeout + rejected` plus
the number of operations currently in flight; the plain three-way sum is
reached exactly when nothing is in flight. -/
theorem C5_stats_accounting (C : Nat) (evs : List REv) (s : RunnerState)
    (h : runTrace C RunnerState.init evs = some s)
    (hrun : s.phase = Phase.running) :
    s.stats.requests =
      s.stats.success + s.stats.timeout + s.stats.rejected + s.inFlight := by
  have := runTrace_inv C
    (fun st => st.phase = Phase.running →
      st.stats.requests = st.stats.success + st.stats.timeout + st.stats.rejected + st.inFlight)
    (fun s e s' hP hstep => rstep_preserves_accounting C s e s' hP hstep)
    evs RunnerState.init s (by intro _; rfl) h
  exact this hrun

/-- Witness for C5 (amended): trace `[launch, complete success, launch]`
with `C = 2` ends with `requests = 2 = 1 + 0 + 0 + 1` (one success, one
in flight). -/
theorem C5_stats_accounting_witness :
    (RunnerState.mk Phase.running 1 ⟨2, 1, 0, 0⟩).stats.requests =
      (RunnerState.mk Phase.running 1 ⟨2, 1, 0, 0⟩).stats.success +
      (RunnerState.mk Phase.running 1 ⟨2, 1, 0, 0⟩).stats.timeout +
      (RunnerState.mk Phase.running 1 ⟨2, 1, 0, 0⟩).stats.rejected +
      (RunnerState.mk Phase.running 1 ⟨2, 1, 0, 0⟩).inFlight :=
  C5_stats_accounting 2 [REv.launch, REv.complete none, REv.launch]
    (RunnerState.mk Phase.running 1 ⟨2, 1, 0, 0⟩) (by decide) (by decide)

/-- C8. In every reachable runner state the number of in-flight
operations is at most the pool size `C`, and a launch can fire only from a
state with strictly fewer than `C` operations in flight. -/
theorem C8_concurrency_bound (C : Nat) (evs : List REv) (s : RunnerState)
    (h : runTrace C RunnerState.init evs = some s) :
    s.inFlight ≤ C ∧
    (∀ s', rstep C s REv.launch = some s' → s.inFlight < C) := by
  constructor
  · refine runTrace_inv C (fun st => st.inFlight ≤ C) ?_ evs RunnerState.init s (by simp [RunnerState.init]) h
    intro st e st' hP hstep
    cases e with
    | launch =>
      simp only [rstep] at hstep
      split at hstep
      · rename_i hcond; cases hstep; simpa using hcond.2
      · exact absurd hstep (by simp)
    | complete r =>
      simp only [rstep] at hstep
      split at hstep
      · cases hstep; simp; omega
      · exact absurd hstep (by simp)
    | stop =>
      simp only [rstep] at hstep
      split at hstep
      · cases hstep; simp
      · exact absurd hstep (by simp)
  · intro s' hs'
    simp only [rstep] at hs'
    split at hs'
    · rename_i hcond; exact hcond.2
    · exact absurd hs' (by simp)

/-- Witness for C8: with `C = 1` and trace `[launch]` the bound `1 ≤ 1`
holds, and from the full pool no launch fires. -/
theorem C8_concurrency_bound_witness :
    (RunnerState.mk Phase.running 1 ⟨1, 0, 0, 0⟩).inFlight ≤ 1 ∧
    (∀ s', rstep 1 (RunnerState.mk Phase.running 1 ⟨1, 0, 0, 0⟩) REv.launch = some s' →
      (RunnerState.mk Phase.running 1 ⟨1, 0, 0, 0⟩).inFlight < 1) :=
  C8_concurrency_bound 1 [REv.launch]
    (RunnerState.mk Phase.running 1 ⟨1, 0, 0, 0⟩) (by decide)

/-- Counterexample to **C4** as stated: with one operation in flight, the
stop path (`finally: gr_stats.kill(); gr_pool.kill()`) terminates the run
with `inFlight = 0` while `requests = 1` and zero outcomes recorded — the
in-flight operation was killed by `gr_pool.kill()` and never reached its
own Success/Timeout/Rejected outcome. -/
theorem C4_counterexample :
    runTrace 10 RunnerState.init [REv.launch, REv.stop] =
      some ⟨Phase.stopped, 0, ⟨1, 0, 0, 0⟩⟩ ∧
    (1 : Nat) ≠ 0 + 0 + 0 := by
  decide

/-- C4 (amended). When the run deadline expires or an interrupt
arrives, the runner stops launching new operations, and `gr_pool.kill()`
forcibly terminates the operations already in flight: the stop transition
zeroes the in-flight count while leaving every outcome counter unchanged
(killed operations are never classified), and no further event — in
particular no launch — is possible afterwards. -/
theorem C4_drain_kills (C : Nat) (s s' : RunnerState)
    (h : rstep C s REv.stop = some s') :
    s'.phase = Phase.stopped ∧ s'.inFlight = 0 ∧ s'.stats = s.stats ∧
    (∀ e, rstep C s' e = none) := by
  simp only [rstep] at h
  split at h
  · cases h
    refine ⟨rfl, rfl, rfl, ?_⟩
    intro e
    cases e <;> simp [rstep]
  · exact absurd h (by simp)

/-- Witness for C4 (amended): a concrete stop from a state with three
operations in flight keeps the counters, zeroes the in-flight count, and
admits no further launch. -/
theorem C4_drain_kills_witness :
    (RunnerState.mk Phase.stopped 0 ⟨5, 1, 1, 0⟩).stats =
      (RunnerState.mk Phase.running 3 ⟨5, 1, 1, 0⟩).stats ∧
    rstep 10 (RunnerState.mk Phase.stopped 0 ⟨5, 1, 1, 0⟩) REv.launch = none := by
  have h := C4_drain_kills 10 (RunnerState.mk Phase.running 3 ⟨5, 1, 1, 0⟩)
    (RunnerState.mk Phase.stopped 0 ⟨5, 1, 1, 0⟩) (by decide)
  exact ⟨h.2.2.1, h.2.2.2 REv.launch⟩

/-- Counterexample to **C2** as stated: when the TCP connect succeeds but
`ftp.login` raises a permanent error (or times out), the exception
propagates out of `FTP.connect` before the `try/finally` is entered, so the
opened connection is never closed. -/
theorem C2_counterexample :
    (connectRun ⟨none, some Exc.errorPerm⟩ none).opened = true ∧
    (connectRun ⟨none, some Exc.errorPerm⟩ none).closes = 0 := by
  decide

/-- C2 (amended). The connection of an operation is closed exactly once
whenever the connect-and-login phase completed, on every exit path of the
operation body (normal return or any exception, the body's outcome also
propagating unchanged); but when connect or login itself raises, no close
is performed — in particular a login failure leaves the already-opened
connection unclosed. -/
theorem C2_connection_close (env : ConnEnv) (body : Option Exc) :
    (env.connectExc = none → env.loginExc = none →
      (connectRun env body).opened = true ∧
      (connectRun env body).closes = 1 ∧
      (connectRun env body).result = body) ∧
    (env.connectExc ≠ none ∨ env.loginExc ≠ none →
      (connectRun env body).closes = 0) ∧
    (connectRun env body).closes ≤ 1 := by
  cases hc : env.connectExc with
  | some e => simp [connectRun, hc]
  | none =>
    cases hl : env.loginExc with
    | some e => simp [connectRun, hc, hl]
    | none => simp [connectRun, hc, hl]

/-- Witness for C2 (amended): a fully successful login operation opens and
closes its connection exactly once. -/
theorem C2_connection_close_witness :
    (connectRun ⟨none, none⟩ none).opened = true ∧
    (connectRun ⟨none, none⟩ none).closes = 1 ∧
    (connectRun ⟨none, none⟩ none).result = none :=
  (C2_connection_close ⟨none, none⟩ none).1 rfl rfl

/-- Counterexample to **C1** as stated: an upload whose `STOR` is rejected
with a permanent error still records its path (the append happens before
`STOR` is issued), so after a run in which every `STOR` is rejected the
Uploaded-File Set is not empty and Cleanup attempts one deletion, not
zero. -/
theorem C1_counterexample :
    (uploadRun storRejectEnv (dataChunks (1 * 1024 * 1024))).result =
      some Exc.errorPerm ∧
    (uploadRun storRejectEnv (dataChunks (1 * 1024 * 1024))).appended = true ∧
    (cleanRun ⟨none, none⟩ (fun _ => none) [0]).2 = [0] := by
  refine ⟨rfl, rfl, rfl⟩

/-- C1 (amended). The Uploaded-File Set records exactly the paths whose
upload attempt completed connect and login (entered the body of the
`connect()` context manager): the path is appended before `STOR` is issued,
so a failure at `STOR`, at any chunk send, or at the final close/response
still leaves the path recorded, while a Timeout or error during connect or
authentication leaves the set unchanged. -/
theorem C1_uploaded_file_set (env : UploadEnv) (chunks : List Nat) :
    (uploadRun env chunks).appended = true ↔
      (env.conn.connectExc = none ∧ env.conn.loginExc = none) := by
  cases hc : env.conn.connectExc with
  | some e => simp [uploadRun, hc]
  | none =>
    cases hl : env.conn.loginExc with
    | some e => simp [uploadRun, hc, hl]
    | none => simp [uploadRun, hc, hl]

/-- Witness for C1 (amended): a connect-phase timeout records nothing; the
rejected-STOR environment records its path. -/
theorem C1_uploaded_file_set_witness :
    (uploadRun ⟨⟨some Exc.timeout, none⟩, none, fun _ => none, none⟩ []).appended ≠ true ∧
    (uploadRun storRejectEnv []).appended = true := by
  constructor
  · intro hct
    have h := (C1_uploaded_file_set
      ⟨⟨some Exc.timeout, none⟩, none, fun _ => none, none⟩ []).mp hct
    exact absurd h.1 (by simp)
  · exact (C1_uploaded_file_set storRejectEnv []).mpr ⟨rfl, rfl⟩

/-- Counterexample to **C9** as stated: with two recorded paths and a first
deletion that fails, the second path receives no delete attempt and the
failure propagates out of Cleanup (failing the run) instead of being
logged. -/
theorem C9_counterexample :
    cleanRun ⟨none, none⟩ (fun p => if p = 0 then some Exc.errorPerm else none)
      [0, 1] = (some Exc.errorPerm, [0]) := by
  rfl

lemma cleanFor_spec (delExc : Nat → Option Exc) (paths : List Nat) :
    cleanFor delExc paths =
      ((paths.dropWhile (fun p => (delExc p).isNone)).head?.bind delExc,
       paths.takeWhile (fun p => (delExc p).isNone) ++
         (paths.dropWhile (fun p => (delExc p).isNone)).take 1) := by
  induction paths with
  | nil => rfl
  | cons p rest ih =>
    cases hd : delExc p with
    | some e =>
      simp [cleanFor, hd, List.dropWhile_cons, List.takeWhile_cons]
    | none =>
      simp [cleanFor, hd, List.dropWhile_cons, List.takeWhile_cons, ih]

/-- C9 (amended). Cleanup attempts deletions in list order: every path
strictly before the first failing deletion receives exactly one delete
attempt, the failing path itself receives one, later paths receive none,
and the first deletion failure propagates out of Cleanup (aborting the
remaining deletions and failing the run); only when every deletion
succeeds does each recorded path receive exactly one delete attempt. -/
theorem C9_cleanup (conn : ConnEnv) (delExc : Nat → Option Exc)
    (paths : List Nat)
    (hc : conn.connectExc = none) (hl : conn.loginExc = none) :
    (cleanRun conn delExc paths).2 =
      paths.takeWhile (fun p => (delExc p).isNone) ++
        (paths.dropWhile (fun p => (delExc p).isNone)).take 1 ∧
    ((cleanRun conn delExc paths).1 = none ↔ ∀ p ∈ paths, delExc p = none) := by
  have hrun : cleanRun conn delExc paths = cleanFor delExc paths := by
    simp [cleanRun, hc, hl]
  rw [hrun, cleanFor_spec]
  refine ⟨rfl, ?_⟩
  constructor
  · intro hnone p hp
    by_contra hbad
    have hex : (delExc p).isNone = false := by
      cases hdp : delExc p with
      | none => exact absurd hdp hbad
      | some e => rfl
    have hdrop : (paths.dropWhile (fun q => (delExc q).isNone)) ≠ [] := by
      intro hnil
      have := List.dropWhile_eq_nil_iff.mp hnil p hp
      rw [hex] at this
      exact Bool.false_ne_true this
    cases hd : paths.dropWhile (fun q => (delExc q).isNone) with
    | nil => exact absurd hd hdrop
    | cons q qs =>
      have hq : (delExc q).isNone = false := by
        have := List.head?_dropWhile_not (fun x => (delExc x).isNone) paths
        rw [hd] at this
        simpa using this
      rw [hd] at hnone
      simp only [List.head?_cons, Option.some_bind] at hnone
      cases hdq : delExc q with
      | none => rw [hdq] at hq; simp at hq
      | some e => rw [hdq] at hnone; exact Option.noConfusion hnone
  · intro hall
    have : paths.dropWhile (fun p => (delExc p).isNone) = [] := by
      rw [List.dropWhile_eq_nil_iff]
      intro p hp
      simp [hall p hp]
    rw [this]
    rfl

/-- Witness for C9 (amended): three paths, all deletions succeeding — each
path receives exactly one delete attempt and Cleanup returns normally. -/
theorem C9_cleanup_witness :
    (cleanRun ⟨none, none⟩ (fun _ => none) [0, 1, 2]).2 = [0, 1, 2] ∧
    (cleanRun ⟨none, none⟩ (fun _ => none) [0, 1, 2]).1 = none := by
  have h := C9_cleanup ⟨none, none⟩ (fun _ => none) [0, 1, 2] rfl rfl
  refine ⟨?_, h.2.mpr (by intro p _; rfl)⟩
  rw [h.1]
  rfl

lemma beq_false_of_ne {α : Type} [BEq α] [LawfulBEq α] {a b : α} (h : a ≠ b) :
    (a == b) = false := by
  cases hab : a == b
  · rfl
  · exact absurd (eq_of_beq hab) h

lemma hitsCount_succ (N i M : Nat) :
    hitsCount N i (M + 1) = hitsCount N i M + if M % N = i then 1 else 0 := by
  simp only [hitsCount, List.range_succ, List.countP_append, List.countP_cons,
    List.countP_nil, Nat.zero_add, beq_iff_eq]

lemma succ_divmod (N M : Nat) (hN : 0 < N) :
    (M + 1) / N = M / N + (if M % N + 1 = N then 1 else 0) ∧
    (M + 1) % N = (if M % N + 1 = N then 0 else M % N + 1) := by
  have hm : N * (M / N) + M % N = M := Nat.div_add_mod M N
  have hr : M % N < N := Nat.mod_lt _ hN
  by_cases hcase : M % N + 1 = N
  · have ha : N * (M / N + 1) = N * (M / N) + N := by ring
    have hM1 : M + 1 = N * (M / N + 1) := by rw [ha]; omega
    refine ⟨?_, ?_⟩
    · rw [hM1, Nat.mul_div_cancel_left _ hN, if_pos hcase]
    · rw [hM1, Nat.mul_mod_right, if_pos hcase]
  · have hmc : M / N * N = N * (M / N) := by ring
    have hM1 : M + 1 = M % N + 1 + M / N * N := by rw [hmc]; omega
    refine ⟨?_, ?_⟩
    · rw [hM1, Nat.add_mul_div_right _ _ hN,
        Nat.div_eq_of_lt (show M % N + 1 < N by omega), if_neg hcase]
      omega
    · rw [hM1, Nat.add_mul_mod_self_right,
        Nat.mod_eq_of_lt (show M % N + 1 < N by omega), if_neg hcase]

lemma hitsCount_formula (N i : Nat) (hN : 0 < N) (hi : i < N) :
    ∀ M, hitsCount N i M = M / N + if i < M % N then 1 else 0 := by
  intro M
  induction M with
  | zero => simp [hitsCount]
  | succ m ih =>
    rw [hitsCount_succ, ih, (succ_divmod N m hN).1, (succ_divmod N m hN).2]
    have hr : m % N < N := Nat.mod_lt _ hN
    split_ifs <;> omega

lemma sum_hitsCount (N : Nat) (hN : 0 < N) (M : Nat) :
    ∑ i in Finset.range N, hitsCount N i M = M := by
  induction M with
  | zero => simp [hitsCount]
  | succ m ih =>
    have hstep : ∀ i, hitsCount N i (m + 1) =
        hitsCount N i m + if m % N = i then 1 else 0 :=
      fun i => hitsCount_succ N i m
    simp only [hstep]
    rw [Finset.sum_add_distrib, ih, Finset.sum_ite_eq]
    simp [Nat.mod_lt m hN]

lemma selectN_closed (hosts : List String) (hN : 1 < hosts.length) :
    ∀ (M c : Nat) (f : String → Nat),
      selectN ⟨hosts, c, some f⟩ M =
        ⟨hosts, c + M,
          some (fun h => f h + (List.range M).countP
            (fun k => hosts.getD ((c + k) % hosts.length) "" == h))⟩ := by
  intro M
  induction M with
  | zero =>
    intro c f
    rfl
  | succ m ih =>
    intro c f
    have hne1 : ¬ hosts.length = 1 := by omega
    have hsel : (hostSelect ⟨hosts, c, some f⟩).2 =
        ⟨hosts, c + 1, some (fun h' =>
          if h' = hosts.getD (c % hosts.length) "" then f h' + 1 else f h')⟩ := by
      simp [hostSelect, hne1]
    have hstep : selectN ⟨hosts, c, some f⟩ (m + 1) =
        selectN (hostSelect ⟨hosts, c, some f⟩).2 m := rfl
    rw [hstep, hsel, ih (c + 1) _]
    have hcur : c + 1 + m = c + (m + 1) := by omega
    rw [SelectorState.mk.injEq]
    refine ⟨rfl, hcur, ?_⟩
    rw [Option.some.injEq]
    funext h
    rw [List.range_succ_eq_map, List.countP_cons, List.countP_map]
    have hshift : (List.range m).countP
        (fun k => hosts.getD ((c + 1 + k) % hosts.length) "" == h) =
        (List.range m).countP
          ((fun k => hosts.getD ((c + k) % hosts.length) "" == h) ∘ Nat.succ) := by
      refine List.countP_congr ?_
      intro k _
      have harg : c + 1 + k = c + Nat.succ k := by omega
      simp [Function.comp, harg]
    rw [hshift]
    have h0 : c + 0 = c := rfl
    by_cases hh : h = hosts.getD (c % hosts.length) ""
    · rw [if_pos hh, h0]
      have hb : (hosts.getD (c % hosts.length) "" == h) = true := by
        rw [hh]; exact beq_self_eq_true _
      rw [hb]
      simp only [if_pos]
      omega
    · rw [if_neg hh, h0]
      have hb : (hosts.getD (c % hosts.length) "" == h) = false :=
        beq_false_of_ne (fun he => hh he.symm)
      rw [hb]
      simp only [Bool.false_eq_true, if_false]
      omega

lemma counts_pointwise (hosts : List String) (hN : 1 < hosts.length)
    (hnd : hosts.Nodup) (M : Nat) :
    (selectN (initFTP hosts) M).counts = some (fun h => (List.range M).countP
      (fun k => hosts.getD (k % hosts.length) "" == h)) ∧
    ∀ i, i < hosts.length →
      (List.range M).countP
        (fun k => hosts.getD (k % hosts.length) "" == hosts.getD i "") =
      hitsCount hosts.length i M := by
  have hinit : initFTP hosts = ⟨hosts, 0, some (fun _ => 0)⟩ := by
    simp [initFTP, hN]
  constructor
  · rw [hinit, selectN_closed hosts hN M 0 (fun _ => 0)]
    rw [Option.some.injEq]
    funext h
    have : ∀ k ∈ List.range M,
        (hosts.getD ((0 + k) % hosts.length) "" == h) =
        (hosts.getD (k % hosts.length) "" == h) := by
      intro k _
      rw [Nat.zero_add]
    rw [List.countP_congr (by intro k hk; rw [this k hk])]
    simp
  · intro i hi
    refine List.countP_congr ?_
    intro k _
    have hkN : k % hosts.length < hosts.length :=
      Nat.mod_lt _ (by omega)
    by_cases hk : k % hosts.length = i
    · rw [hk]
      simp
    · have hne : hosts.getD (k % hosts.length) "" ≠ hosts.getD i "" := by
        rw [List.getD_eq_getElem hosts "" hkN, List.getD_eq_getElem hosts "" hi]
        intro he
        exact hk (hnd.getElem_inj_iff.mp he)
      rw [beq_false_of_ne hne, beq_false_of_ne hk]

/-- C7. Target selection: with exactly one configured target every
selection returns it with no state mutation and no selection counters
exist; with `N > 1` distinct targets each selection returns the target at
the current cursor and advances the cursor by one (so modulo `N`), and
after `M` selections from a fresh selector each target's counter is
`⌊M/N⌋` or `⌈M/N⌉` and the counters sum to `M`. -/
theorem C7_target_selection (hosts : List String) (M : Nat)
    (hnd : hosts.Nodup) :
    (hosts.length = 1 →
      (initFTP hosts).counts = none ∧
      ∀ s : SelectorState, s.hosts = hosts →
        hostSelect s = (hosts.getD 0 "", s)) ∧
    (1 < hosts.length →
      (∀ s : SelectorState, s.hosts = hosts →
        (hostSelect s).1 = hosts.getD (s.cursor % hosts.length) "" ∧
        (hostSelect s).2.cursor = s.cursor + 1) ∧
      ∃ g, (selectN (initFTP hosts) M).counts = some g ∧
        (∀ i, i < hosts.length →
          g (hosts.getD i "") = M / hosts.length ∨
          g (hosts.getD i "") = (M + hosts.length - 1) / hosts.length) ∧
        ∑ i in Finset.range hosts.length, g (hosts.getD i "") = M) := by
  constructor
  · intro h1
    constructor
    · simp [initFTP, h1]
    · intro s hs
      rw [hostSelect, if_pos (by rw [hs, h1]), hs]
  · intro hN
    have hne1 : ¬ hosts.length = 1 := by omega
    constructor
    · intro s hs
      constructor
      · rw [hostSelect, if_neg (by rw [hs]; exact hne1), hs]
      · rw [hostSelect, if_neg (by rw [hs]; exact hne1)]
    · obtain ⟨hg, hpt⟩ := counts_pointwise hosts hN hnd M
      refine ⟨_, hg, ?_, ?_⟩
      · intro i hi
        rw [hpt i hi,
          hitsCount_formula hosts.length i (by omega) hi M]
        by_cases hlt : i < M % hosts.length
        · right
          have hmodpos : M % hosts.length ≠ 0 := by omega
          -- ⌈M/N⌉ = M/N + 1 when N ∤ M
          have hm : hosts.length * (M / hosts.length) + M % hosts.length = M :=
            Nat.div_add_mod M hosts.length
          have hr : M % hosts.length < hosts.length := Nat.mod_lt _ (by omega)
          have hmc : (M / hosts.length + 1) * hosts.length =
              hosts.length * (M / hosts.length) + hosts.length := by ring
          have h1 : M + hosts.length - 1 =
              M % hosts.length - 1 + (M / hosts.length + 1) * hosts.length := by
            rw [hmc]; omega
          have hdiv : (M + hosts.length - 1) / hosts.length = M / hosts.length + 1 := by
            rw [h1, Nat.add_mul_div_right _ _ (show 0 < hosts.length by omega),
              Nat.div_eq_of_lt (show M % hosts.length - 1 < hosts.length by omega)]
            omega
          rw [if_pos hlt, hdiv]
        · left
          rw [if_neg hlt]
          omega
      · rw [Finset.sum_congr rfl (fun i hi => by
          rw [hpt i (Finset.mem_range.mp hi),
            hitsCount_formula hosts.length i (by omega) (Finset.mem_range.mp hi) M])]
        have := sum_hitsCount hosts.length (by omega) M
        rw [Finset.sum_congr rfl (fun i hi => by
          rw [← hitsCount_formula hosts.length i (by omega) (Finset.mem_range.mp hi) M])]
        exact this

/-- Witness for C7: three distinct targets, seven selections — counters
are 3, 2, 2 (each `⌊7/3⌋ = 2` or `⌈7/3⌉ = 3`) and sum to 7. -/
theorem C7_target_selection_witness :
    ∃ g, (selectN (initFTP ["a", "b", "c"]) 7).counts = some g ∧
      (g "a" = 2 ∨ g "a" = 3) ∧ (g "b" = 2 ∨ g "b" = 3) ∧ (g "c" = 2 ∨ g "c" = 3) ∧
      ∑ i in Finset.range 3, g ((["a", "b", "c"] : List String).getD i "") = 7 := by
  obtain ⟨-, g, hg, hfc, hsum⟩ :=
    (C7_target_selection ["a", "b", "c"] 7 (by decide)).2 (by decide)
  exact ⟨g, hg, hfc 0 (by decide), hfc 1 (by decide), hfc 2 (by decide), hsum⟩

/-- C10. With more than one target configured, one `FTP.connect`
evaluates the `host` property twice — once for the `":" in self.host`
port-separator test and once more when parsing the host or opening the
connection — so each connection advances the round-robin cursor by two
(which is "two or three times rather than once") and increments two
selection counters; the host tested for a port suffix is the entry at the
cursor while the host actually connected to is the next entry. -/
theorem C10_double_evaluation (s : SelectorState) (hN : 1 < s.hosts.length) :
    (connectHosts s).2.cursor = s.cursor + 2 ∧
    (connectHosts s).1.1 = s.hosts.getD (s.cursor % s.hosts.length) "" ∧
    (connectHosts s).1.2 = s.hosts.getD ((s.cursor + 1) % s.hosts.length) "" ∧
    (∀ f, s.counts = some f →
      (connectHosts s).2.counts = some (fun h =>
        f h + (if h = s.hosts.getD (s.cursor % s.hosts.length) "" then 1 else 0)
            + (if h = s.hosts.getD ((s.cursor + 1) % s.hosts.length) "" then 1 else 0))) := by
  obtain ⟨hosts, c, cnt⟩ := s
  have hne1 : ¬ hosts.length = 1 := by simp at hN ⊢; omega
  simp only at hN
  refine ⟨?_, ?_, ?_, ?_⟩
  · simp [connectHosts, hostSelect, hne1]
  · simp [connectHosts, hostSelect, hne1]
  · simp [connectHosts, hostSelect, hne1]
  · intro f hf
    simp only at hf
    subst hf
    simp only [connectHosts, hostSelect, if_neg hne1, Option.map_some']
    rw [Option.some.injEq]
    funext h
    split_ifs <;> omega

/-- Witness for C10: hosts `["a", "b"]` from a fresh cursor — the
port-separator test consumes `"a"` while the connection is made to `"b"`,
a different target, and both counters are incremented once. -/
theorem C10_double_evaluation_witness :
    (connectHosts ⟨["a", "b"], 0, some (fun _ => 0)⟩).1.1 = "a" ∧
    (connectHosts ⟨["a", "b"], 0, some (fun _ => 0)⟩).1.2 = "b" ∧
    ("a" : String) ≠ "b" ∧
    (connectHosts ⟨["a", "b"], 0, some (fun _ => 0)⟩).2.cursor = 0 + 2 := by
  have h := C10_double_evaluation ⟨["a", "b"], 0, some (fun _ => 0)⟩ (by decide)
  exact ⟨h.2.1.trans rfl, h.2.2.1.trans rfl, by decide, h.1⟩

end FtpBench
